import Mathlib

/-!
Verification of the PinPortrait sketch (`src/javascript/sketch.js`).

The embedding models the per-frame pixel-to-block pipeline:
* `setupColors` — the grayscale lookup table (a `Map` from integer keys to colors);
* `reset` / `setupCubes` — the grid builder (`nrOfCubesX = w / size` with JS real
  division, then nested `for` loops with a rational upper bound);
* `getAverage` — the block sampler; JS `NaN` (arising from reads past the end of
  the pixel array, which yield `undefined`) is modelled by `Option ℚ` with `none`
  standing for a non-finite number, and arithmetic propagating `none`;
* `pixelate` — the per-cycle pass over all cubes, including the debug
  `fillRect` that paints a red 50×50 rectangle on the 2D canvas.

All JS numbers are modelled as exact rationals.
-/

namespace PinPortrait

/-- An RGB color value, as produced by `new THREE.Color("rgb(r, g, b)")`. -/
abbrev Color := ℕ × ℕ × ℕ

/-- The constant `const size = 8;` — the side length of each pixel block / cube. -/
def size : ℕ := 8

/-- Model of `setupColors`: the lookup table mapping each integer `0 ≤ i < 256` to the
grayscale color `rgb(i, i, i)`.  The JS `Map` is modelled as an association
list; `colors.get(c)` becomes `List.lookup c`. -/
def setupColors : List (ℤ × Color) :=
  (List.range 256).map (fun (i : ℕ) => ((i : ℤ), (i, i, i)))

/-- The default material color `rgb(128, 128, 128)` given to every cube. -/
def defaultColor : Color := (128, 128, 128)

/-- One cube: `position = (posX, posY, posZ)`, `scale.z = scaleZ`, and the
material color (`none` models `colors.get` missing, i.e. `undefined`). -/
structure Cube where
  posX : ℤ
  posY : ℤ
  posZ : ℚ
  scaleZ : ℚ
  color : Option Color
  deriving DecidableEq, Repr

/-- From `reset`: `nrOfCubesX = w / size` — JS division, an exact rational. -/
def nrOfCubesX (w sz : ℕ) : ℚ := (w : ℚ) / (sz : ℚ)

/-- From `reset`: `nrOfCubesY = h / size` — JS division, an exact rational. -/
def nrOfCubesY (h sz : ℕ) : ℚ := (h : ℚ) / (sz : ℚ)

/-- Number of iterations of the JS loop `for (let x = 0; x < c; x++)` with a
(possibly fractional) rational bound `c`: the integers `x ≥ 0` with `x < c`. -/
def loopIters (c : ℚ) : ℕ := Int.toNat ⌈c⌉

/-- The cube pushed for grid cell `(x, y)`: `cube.position.set(x, y, 0)`, unit
scale, default color. -/
def mkCube (x y : ℕ) : Cube :=
  { posX := x, posY := y, posZ := 0, scaleZ := 1, color := some defaultColor }

/-- Model of `setupCubes`: outer loop over `x < nrOfCubesX`, inner loop over
`y < nrOfCubesY`, pushing one cube per cell in that order. -/
def setupCubes (w h sz : ℕ) : List Cube :=
  (List.range (loopIters (nrOfCubesX w sz))).flatMap (fun x =>
    (List.range (loopIters (nrOfCubesY h sz))).map (fun y => mkCube x y))

/-- A JS number that may be non-finite: `none` models `NaN` (e.g. from adding
`undefined`, the result of an out-of-range indexed read) and is propagated by
all arithmetic below. -/
abbrev JSNum := Option ℚ

/-- JS addition on possibly-non-finite numbers: `NaN` absorbs. -/
def nadd : JSNum → JSNum → JSNum
  | some a, some b => some (a + b)
  | _, _ => none

/-- JS multiplication by a finite constant: `NaN` absorbs. -/
def nmul (c : ℚ) : JSNum → JSNum
  | some a => some (c * a)
  | none => none

/-- JS division by a finite denominator.  A zero denominator yields a
non-finite result (`0/0 = NaN`; in every use below the numerator is `0`
whenever the denominator is, so the `Infinity` case never arises). -/
def ndiv : JSNum → ℚ → JSNum
  | some a, b => if b = 0 then none else some (a / b)
  | none, _ => none

/-- Indexed read `pixels[i]` on a typed array: `undefined` (here `none`) outside `[0, length)`. -/
def readPix (pixels : List ℕ) (i : ℤ) : JSNum :=
  if 0 ≤ i then (pixels.get? i.toNat).map (fun v => (v : ℚ)) else none

/-- The three channel accumulators `r`, `g`, `b` of `getAverage`. -/
@[ext]
structure ChannelSums where
  r : JSNum
  g : JSNum
  b : JSNum
  deriving DecidableEq, Repr

/-- The body of `getAverage`'s double loop at pixel `(x, y)`:
`index = (x + w * y) * 4;  r += pixels[index]; g += pixels[index + 1];
b += pixels[index + 2];`. -/
def addPixel (pixels : List ℕ) (w : ℕ) (s : ChannelSums) (x y : ℤ) : ChannelSums :=
  let index := (x + (w : ℤ) * y) * 4
  { r := nadd s.r (readPix pixels index)
    g := nadd s.g (readPix pixels (index + 1))
    b := nadd s.b (readPix pixels (index + 2)) }

/-- `getAverage`'s double loop: `x` from `x0` to `x0 + size - 1` (outer), `y`
from `y0` to `y0 + size - 1` (inner), starting from `r = g = b = 0`. -/
def sumWindow (pixels : List ℕ) (w : ℕ) (x0 y0 : ℤ) (sz : ℕ) : ChannelSums :=
  (List.range sz).foldl (fun acc (dx : ℕ) =>
    (List.range sz).foldl (fun acc2 (dy : ℕ) =>
      addPixel pixels w acc2 (x0 + (dx : ℤ)) (y0 + (dy : ℤ))) acc)
    { r := some 0, g := some 0, b := some 0 }

/-- The value `val = (0.2126 * r + 0.7152 * g + 0.0722 * b) / (size * size)` before the
`isNaN` check: `none` when the value is not a finite number. -/
def getAverageRaw (pixels : List ℕ) (w : ℕ) (x0 y0 : ℤ) (sz : ℕ) : JSNum :=
  let s := sumWindow pixels w x0 y0 sz
  ndiv (nadd (nadd (nmul 0.2126 s.r) (nmul 0.7152 s.g)) (nmul 0.0722 s.b))
    ((sz : ℚ) * (sz : ℚ))

/-- Model of `getAverage`: `return isNaN(val) ? 1 : val;`. -/
def getAverage (pixels : List ℕ) (w : ℕ) (x0 y0 : ℤ) (sz : ℕ) : ℚ :=
  match getAverageRaw pixels w x0 y0 sz with
  | none => 1
  | some v => v

/-- The body of `pixelate`'s `cubes.forEach`: sample at the mirrored origin
`(w - x*size, h - y*size)`, then
`cube.material.color = colors.get(Math.round(col))`, `cube.scale.z = z`,
`cube.position.z = z / 2` with `z = col / 10 + 0.01`. -/
def sampleCube (pixels : List ℕ) (w h sz : ℕ) (colors : List (ℤ × Color))
    (cube : Cube) : Cube :=
  let col := getAverage pixels w
    ((w : ℤ) - cube.posX * (sz : ℤ)) ((h : ℤ) - cube.posY * (sz : ℤ)) sz
  let c := round col
  let z := col / 10 + 0.01
  { cube with color := colors.lookup c, scaleZ := z, posZ := z / 2 }

/-- The mutable state touched by `pixelate`: canvas dimensions, the 2D canvas
contents (row-major), the color table and the cube list. -/
structure SketchState where
  w : ℕ
  h : ℕ
  canvas : List Color
  colors : List (ℤ × Color)
  cubes : List Cube
  deriving DecidableEq, Repr

/-- The CSS color `red`. -/
def red : Color := (255, 0, 0)

/-- Model of `ctx.fillRect(rx, ry, rw, rh)` with fill color `c` on a canvas of width
`w`, stored row-major. -/
def fillRect (w : ℕ) (canvas : List Color) (rx ry rw rh : ℕ) (c : Color) :
    List Color :=
  canvas.mapIdx (fun i p =>
    if rx ≤ i % w ∧ i % w < rx + rw ∧ ry ≤ i / w ∧ i / w < ry + rh then c else p)

/-- Model of `ctx.getImageData(0, 0, w, h).data`: the canvas contents as packed RGBA
bytes (alpha fully opaque). -/
def getImageData (canvas : List Color) : List ℕ :=
  canvas.flatMap (fun c => [c.1, c.2.1, c.2.2, 255])

/-- Model of `pixelate`: snapshot the canvas pixels, paint the debug red 50×50
rectangle, then update every cube via `sampleCube` (with the global
`size = 8`). -/
def pixelate (s : SketchState) : SketchState :=
  let pixels := getImageData s.canvas
  { s with
    canvas := fillRect s.w s.canvas 0 0 50 50 red
    cubes := s.cubes.map (sampleCube pixels s.w s.h size s.colors) }

/-- The claim's in-bounds property for the sampling window of the block at
grid cell `(gx, gy)`: `x ∈ [px0, px0 + size)` stays in `[0, w)` and
`y ∈ [py0, py0 + size)` stays in `[0, h)`, with the mirrored origin
`px0 = w - gx*size`, `py0 = h - gy*size`. -/
def windowInBounds (w h sz : ℕ) (gx gy : ℤ) : Prop :=
  0 ≤ (w : ℤ) - gx * sz ∧ (w : ℤ) - gx * sz + sz ≤ w ∧
  0 ≤ (h : ℤ) - gy * sz ∧ (h : ℤ) - gy * sz + sz ≤ h

instance (w h sz : ℕ) (gx gy : ℤ) : Decidable (windowInBounds w h sz gx gy) := by
  unfold windowInBounds; infer_instance

/-- The pixel coordinates scanned by the sampler's double loop, in loop order:
outer `x` from `x0`, inner `y` from `y0`. -/
def windowPoints (x0 y0 : ℤ) (sz : ℕ) : List (ℤ × ℤ) :=
  (List.range sz).flatMap (fun (dx : ℕ) =>
    (List.range sz).map (fun (dy : ℕ) => (x0 + (dx : ℤ), y0 + (dy : ℤ))))

/-- Linear index of channel `ch` of pixel `p` in the packed RGBA buffer:
`(x + w * y) * 4 + ch`. -/
def chanIdx (w : ℕ) (p : ℤ × ℤ) (ch : ℕ) : ℤ :=
  (p.1 + (w : ℤ) * p.2) * 4 + (ch : ℤ)

/-- The byte stored at channel `ch` of pixel `p`, as a rational (`0` when the
index is out of range; only used where the index is in range). -/
def pixVal (pixels : List ℕ) (w : ℕ) (p : ℤ × ℤ) (ch : ℕ) : ℚ :=
  (((pixels.get? (chanIdx w p ch).toNat).getD 0 : ℕ) : ℚ)

/-- Modelled from the spec: `L = (0.2126*R + 0.7152*G + 0.0722*B) / (size*size)`
where `R`, `G`, `B` are the channel sums over the block's window.  This is the
spec's formula, stated independently of the code's `NaN`-propagating
accumulation, for comparison with `getAverage`. -/
def specLuminance (pixels : List ℕ) (w : ℕ) (x0 y0 : ℤ) (sz : ℕ) : ℚ :=
  (0.2126 * ((windowPoints x0 y0 sz).map (fun p => pixVal pixels w p 0)).sum
    + 0.7152 * ((windowPoints x0 y0 sz).map (fun p => pixVal pixels w p 1)).sum
    + 0.0722 * ((windowPoints x0 y0 sz).map (fun p => pixVal pixels w p 2)).sum)
    / ((sz : ℚ) * (sz : ℚ))

/-- Modelled from the spec: the doubly mirrored pixel-space sampling origin
`(px0, py0) = (W - gx*size, H - gy*size)`. -/
def specMirroredOrigin (w h sz : ℕ) (gx gy : ℤ) : ℤ × ℤ :=
  ((w : ℤ) - gx * (sz : ℤ), (h : ℤ) - gy * (sz : ℤ))

/-! ### Helper lemmas -/

theorem nadd_none_left (a : JSNum) : nadd none a = none := by
  cases a <;> rfl

theorem nadd_none_right (a : JSNum) : nadd a none = none := by
  cases a <;> rfl

theorem foldl_flatMap {α β γ : Type} (g : γ → β → γ) (f : α → List β)
    (l : List α) (i : γ) :
    (l.flatMap f).foldl g i = l.foldl (fun a x => (f x).foldl g a) i := by
  induction l generalizing i with
  | nil => rfl
  | cons hd tl ih => simp [List.flatMap_cons, List.foldl_append, ih]

theorem mem_windowPoints {x0 y0 : ℤ} {sz : ℕ} {p : ℤ × ℤ} :
    p ∈ windowPoints x0 y0 sz ↔
      ∃ dx < sz, ∃ dy < sz, p = (x0 + (dx : ℤ), y0 + (dy : ℤ)) := by
  unfold windowPoints
  simp only [List.mem_flatMap, List.mem_map, List.mem_range]
  constructor
  · rintro ⟨dx, hdx, ⟨dy, hdy, rfl⟩⟩
    exact ⟨dx, hdx, dy, hdy, rfl⟩
  · rintro ⟨dx, hdx, dy, hdy, rfl⟩
    exact ⟨dx, hdx, dy, hdy, rfl⟩

theorem windowPoints_length (x0 y0 : ℤ) (sz : ℕ) :
    (windowPoints x0 y0 sz).length = sz * sz := by
  simp [windowPoints, List.length_flatMap, Function.comp_def, List.map_const]

theorem sumWindow_eq_foldl (pixels : List ℕ) (w : ℕ) (x0 y0 : ℤ) (sz : ℕ) :
    sumWindow pixels w x0 y0 sz =
      (windowPoints x0 y0 sz).foldl
        (fun s p => addPixel pixels w s p.1 p.2)
        { r := some 0, g := some 0, b := some 0 } := by
  unfold sumWindow windowPoints
  rw [foldl_flatMap]
  simp only [List.foldl_map]

theorem foldl_addPixel_r (pixels : List ℕ) (w : ℕ) (ps : List (ℤ × ℤ))
    (s : ChannelSums) :
    (ps.foldl (fun a p => addPixel pixels w a p.1 p.2) s).r =
      ps.foldl (fun a p => nadd a (readPix pixels (chanIdx w p 0))) s.r := by
  induction ps generalizing s with
  | nil => rfl
  | cons hd tl ih => rw [List.foldl_cons, List.foldl_cons, ih]; simp [addPixel, chanIdx]

theorem foldl_addPixel_g (pixels : List ℕ) (w : ℕ) (ps : List (ℤ × ℤ))
    (s : ChannelSums) :
    (ps.foldl (fun a p => addPixel pixels w a p.1 p.2) s).g =
      ps.foldl (fun a p => nadd a (readPix pixels (chanIdx w p 1))) s.g := by
  induction ps generalizing s with
  | nil => rfl
  | cons hd tl ih => rw [List.foldl_cons, List.foldl_cons, ih]; simp [addPixel, chanIdx]

theorem foldl_addPixel_b (pixels : List ℕ) (w : ℕ) (ps : List (ℤ × ℤ))
    (s : ChannelSums) :
    (ps.foldl (fun a p => addPixel pixels w a p.1 p.2) s).b =
      ps.foldl (fun a p => nadd a (readPix pixels (chanIdx w p 2))) s.b := by
  induction ps generalizing s with
  | nil => rfl
  | cons hd tl ih => rw [List.foldl_cons, List.foldl_cons, ih]; simp [addPixel, chanIdx]

theorem foldl_nadd_none {α : Type} (l : List α) (f : α → JSNum) :
    l.foldl (fun acc x => nadd acc (f x)) none = none := by
  induction l with
  | nil => rfl
  | cons hd tl ih => rw [List.foldl_cons, nadd_none_left]; exact ih

theorem foldl_nadd_eq_none {α : Type} (l : List α) (f : α → JSNum) (a : JSNum)
    (h : ∃ x ∈ l, f x = none) :
    l.foldl (fun acc x => nadd acc (f x)) a = none := by
  induction l generalizing a with
  | nil => simp at h
  | cons hd tl ih =>
    rw [List.foldl_cons]
    rcases h with ⟨x, hx, hfx⟩
    rcases List.mem_cons.mp hx with rfl | hxtl
    · rw [hfx, nadd_none_right]; exact foldl_nadd_none tl f
    · exact ih _ ⟨x, hxtl, hfx⟩

theorem foldl_nadd_some {α : Type} (l : List α) (f : α → JSNum) (v : α → ℚ)
    (q : ℚ) (h : ∀ x ∈ l, f x = some (v x)) :
    l.foldl (fun acc x => nadd acc (f x)) (some q) =
      some (q + (l.map v).sum) := by
  induction l generalizing q with
  | nil => simp
  | cons hd tl ih =>
    rw [List.foldl_cons, h hd (List.mem_cons_self hd tl), nadd,
      ih (q + v hd) (fun x hx => h x (List.mem_cons_of_mem hd hx))]
    simp [add_assoc]

theorem readPix_eq_some {pixels : List ℕ} {i : ℤ} (h0 : 0 ≤ i)
    (hlt : i < (pixels.length : ℤ)) :
    readPix pixels i = some (((pixels.get? i.toNat).getD 0 : ℕ) : ℚ) := by
  unfold readPix
  rw [if_pos h0]
  have hn : i.toNat < pixels.length := by omega
  rcases h : pixels.get? i.toNat with _ | v
  · exact absurd (List.get?_eq_none.mp h) (by omega)
  · simp

theorem readPix_eq_none {pixels : List ℕ} {i : ℤ}
    (h : (pixels.length : ℤ) ≤ i) :
    readPix pixels i = none := by
  unfold readPix
  by_cases h0 : 0 ≤ i
  · rw [if_pos h0, List.get?_eq_none.mpr (by omega)]; rfl
  · rw [if_neg h0]

theorem chanIdx_nonneg {w : ℕ} {p : ℤ × ℤ} {ch : ℕ}
    (hx : 0 ≤ p.1) (hy : 0 ≤ p.2) : 0 ≤ chanIdx w p ch := by
  unfold chanIdx
  have : 0 ≤ (w : ℤ) * p.2 := mul_nonneg (by positivity) hy
  positivity

theorem chanIdx_lt {w h : ℕ} {p : ℤ × ℤ} {ch : ℕ}
    (hx0 : 0 ≤ p.1) (hx1 : p.1 < (w : ℤ)) (hy0 : 0 ≤ p.2) (hy1 : p.2 < (h : ℤ))
    (hch : ch < 4) : chanIdx w p ch < ((w * h * 4 : ℕ) : ℤ) := by
  unfold chanIdx
  have hw : (0 : ℤ) ≤ (w : ℤ) := by positivity
  have h1 : (w : ℤ) * p.2 ≤ (w : ℤ) * ((h : ℤ) - 1) :=
    mul_le_mul_of_nonneg_left (by omega) hw
  have hch4 : ((ch : ℤ)) < 4 := by exact_mod_cast hch
  push_cast
  nlinarith

theorem readPix_chanIdx_eq_some {pixels : List ℕ} {w h sz : ℕ} {x0 y0 : ℤ}
    (hlen : pixels.length = w * h * 4)
    (hx0 : 0 ≤ x0) (hx1 : x0 + (sz : ℤ) ≤ (w : ℤ))
    (hy0 : 0 ≤ y0) (hy1 : y0 + (sz : ℤ) ≤ (h : ℤ))
    {ch : ℕ} (hch : ch < 4) {p : ℤ × ℤ} (hp : p ∈ windowPoints x0 y0 sz) :
    readPix pixels (chanIdx w p ch) = some (pixVal pixels w p ch) := by
  obtain ⟨dx, hdx, dy, hdy, rfl⟩ := mem_windowPoints.mp hp
  have hdx' : (dx : ℤ) < (sz : ℤ) := by exact_mod_cast hdx
  have hdy' : (dy : ℤ) < (sz : ℤ) := by exact_mod_cast hdy
  have hxl : 0 ≤ x0 + (dx : ℤ) := by positivity
  have hyl : 0 ≤ y0 + (dy : ℤ) := by positivity
  have hxu : x0 + (dx : ℤ) < (w : ℤ) := by omega
  have hyu : y0 + (dy : ℤ) < (h : ℤ) := by omega
  have h0 : 0 ≤ chanIdx w (x0 + (dx : ℤ), y0 + (dy : ℤ)) ch :=
    chanIdx_nonneg hxl hyl
  have hlt : chanIdx w (x0 + (dx : ℤ), y0 + (dy : ℤ)) ch < ((w * h * 4 : ℕ) : ℤ) :=
    chanIdx_lt hxl hxu hyl hyu hch
  rw [readPix_eq_some h0 (by omega)]
  rfl

theorem sumWindow_eq_spec {pixels : List ℕ} {w h sz : ℕ} {x0 y0 : ℤ}
    (hlen : pixels.length = w * h * 4)
    (hx0 : 0 ≤ x0) (hx1 : x0 + (sz : ℤ) ≤ (w : ℤ))
    (hy0 : 0 ≤ y0) (hy1 : y0 + (sz : ℤ) ≤ (h : ℤ)) :
    sumWindow pixels w x0 y0 sz =
      { r := some (((windowPoints x0 y0 sz).map (fun p => pixVal pixels w p 0)).sum)
        g := some (((windowPoints x0 y0 sz).map (fun p => pixVal pixels w p 1)).sum)
        b := some (((windowPoints x0 y0 sz).map (fun p => pixVal pixels w p 2)).sum) } := by
  rw [sumWindow_eq_foldl]
  ext
  · rw [foldl_addPixel_r]
    rw [show ({ r := some 0, g := some 0, b := some 0 } : ChannelSums).r = some 0 from rfl]
    rw [foldl_nadd_some _ _ (fun p => pixVal pixels w p 0) 0
      (fun p hp => readPix_chanIdx_eq_some hlen hx0 hx1 hy0 hy1 (by norm_num) hp)]
    rw [zero_add]
  · rw [foldl_addPixel_g]
    rw [show ({ r := some 0, g := some 0, b := some 0 } : ChannelSums).g = some 0 from rfl]
    rw [foldl_nadd_some _ _ (fun p => pixVal pixels w p 1) 0
      (fun p hp => readPix_chanIdx_eq_some hlen hx0 hx1 hy0 hy1 (by norm_num) hp)]
    rw [zero_add]
  · rw [foldl_addPixel_b]
    rw [show ({ r := some 0, g := some 0, b := some 0 } : ChannelSums).b = some 0 from rfl]
    rw [foldl_nadd_some _ _ (fun p => pixVal pixels w p 2) 0
      (fun p hp => readPix_chanIdx_eq_some hlen hx0 hx1 hy0 hy1 (by norm_num) hp)]
    rw [zero_add]

theorem getAverageRaw_eq_spec {pixels : List ℕ} {w h sz : ℕ} {x0 y0 : ℤ}
    (hlen : pixels.length = w * h * 4) (hsz : 1 ≤ sz)
    (hx0 : 0 ≤ x0) (hx1 : x0 + (sz : ℤ) ≤ (w : ℤ))
    (hy0 : 0 ≤ y0) (hy1 : y0 + (sz : ℤ) ≤ (h : ℤ)) :
    getAverageRaw pixels w x0 y0 sz = some (specLuminance pixels w x0 y0 sz) := by
  have hszQ : (0 : ℚ) < (sz : ℚ) := by exact_mod_cast hsz
  unfold getAverageRaw
  rw [sumWindow_eq_spec hlen hx0 hx1 hy0 hy1]
  simp only [nmul, nadd, ndiv, specLuminance]
  rw [if_neg (by positivity)]

theorem getAverage_eq_spec {pixels : List ℕ} {w h sz : ℕ} {x0 y0 : ℤ}
    (hlen : pixels.length = w * h * 4) (hsz : 1 ≤ sz)
    (hx0 : 0 ≤ x0) (hx1 : x0 + (sz : ℤ) ≤ (w : ℤ))
    (hy0 : 0 ≤ y0) (hy1 : y0 + (sz : ℤ) ≤ (h : ℤ)) :
    getAverage pixels w x0 y0 sz = specLuminance pixels w x0 y0 sz := by
  unfold getAverage
  rw [getAverageRaw_eq_spec hlen hsz hx0 hx1 hy0 hy1]

theorem lt_loopIters {x : ℕ} {c : ℚ} : x < loopIters c ↔ (x : ℚ) < c := by
  unfold loopIters
  rw [Int.lt_toNat, Int.lt_ceil, Int.cast_natCast]

theorem mem_setupCubes {w h sz : ℕ} {cube : Cube} :
    cube ∈ setupCubes w h sz ↔
      ∃ x y : ℕ, (x : ℚ) < nrOfCubesX w sz ∧ (y : ℚ) < nrOfCubesY h sz ∧
        cube = mkCube x y := by
  unfold setupCubes
  simp only [List.mem_flatMap, List.mem_map, List.mem_range]
  constructor
  · rintro ⟨x, hx, y, hy, rfl⟩
    exact ⟨x, y, lt_loopIters.mp hx, lt_loopIters.mp hy, rfl⟩
  · rintro ⟨x, y, hx, hy, rfl⟩
    exact ⟨x, lt_loopIters.mpr hx, y, lt_loopIters.mpr hy, rfl⟩

theorem grid_mul_lt {x w sz : ℕ} (hsz : 1 ≤ sz)
    (hx : (x : ℚ) < (w : ℚ) / (sz : ℚ)) : x * sz < w := by
  have hszQ : (0 : ℚ) < (sz : ℚ) := by exact_mod_cast hsz
  rw [lt_div_iff₀ hszQ] at hx
  exact_mod_cast hx

theorem loopIters_eval (c : ℚ) (n : ℤ) (h1 : (n : ℚ) - 1 < c) (h2 : c ≤ (n : ℚ)) :
    loopIters c = n.toNat := by
  rw [loopIters, Int.ceil_eq_iff.mpr ⟨h1, h2⟩]

theorem setupCubes_eval {w h sz cols rows : ℕ}
    (hc : loopIters (nrOfCubesX w sz) = cols)
    (hr : loopIters (nrOfCubesY h sz) = rows) :
    setupCubes w h sz =
      (List.range cols).flatMap (fun x => (List.range rows).map (mkCube x)) := by
  unfold setupCubes
  rw [hc, hr]

theorem chanIdx_mem_bounds {w h sz : ℕ} {x0 y0 : ℤ}
    (hx0 : 0 ≤ x0) (hx1 : x0 + (sz : ℤ) ≤ (w : ℤ))
    (hy0 : 0 ≤ y0) (hy1 : y0 + (sz : ℤ) ≤ (h : ℤ))
    {ch : ℕ} (hch : ch < 4) {p : ℤ × ℤ} (hp : p ∈ windowPoints x0 y0 sz) :
    0 ≤ chanIdx w p ch ∧ chanIdx w p ch < ((w * h * 4 : ℕ) : ℤ) := by
  obtain ⟨dx, hdx, dy, hdy, rfl⟩ := mem_windowPoints.mp hp
  have hdx' : (dx : ℤ) < (sz : ℤ) := by exact_mod_cast hdx
  have hdy' : (dy : ℤ) < (sz : ℤ) := by exact_mod_cast hdy
  have hxl : 0 ≤ x0 + (dx : ℤ) := by positivity
  have hyl : 0 ≤ y0 + (dy : ℤ) := by positivity
  have hxu : x0 + (dx : ℤ) < (w : ℤ) := by omega
  have hyu : y0 + (dy : ℤ) < (h : ℤ) := by omega
  exact ⟨chanIdx_nonneg hxl hyl, chanIdx_lt hxl hxu hyl hyu hch⟩

theorem pixVal_const {pixels : List ℕ} {v w : ℕ} {p : ℤ × ℤ} {ch : ℕ}
    (hv : ∀ u ∈ pixels, u = v)
    (hlt : (chanIdx w p ch).toNat < pixels.length) :
    pixVal pixels w p ch = (v : ℚ) := by
  unfold pixVal
  rcases hq : pixels.get? (chanIdx w p ch).toNat with _ | u
  · exact absurd (List.get?_eq_none.mp hq) (by omega)
  · rw [Option.getD_some, hv u (List.get?_mem hq)]

theorem specLuminance_const {pixels : List ℕ} {w h sz : ℕ} {x0 y0 : ℤ} {v : ℕ}
    (hlen : pixels.length = w * h * 4) (hsz : 1 ≤ sz)
    (hx0 : 0 ≤ x0) (hx1 : x0 + (sz : ℤ) ≤ (w : ℤ))
    (hy0 : 0 ≤ y0) (hy1 : y0 + (sz : ℤ) ≤ (h : ℤ))
    (hv : ∀ u ∈ pixels, u = v) :
    specLuminance pixels w x0 y0 sz = (v : ℚ) := by
  have hszQ : (0 : ℚ) < (sz : ℚ) := by exact_mod_cast hsz
  have hmap : ∀ ch : ℕ, ch < 4 →
      ((windowPoints x0 y0 sz).map (fun p => pixVal pixels w p ch)).sum =
        ((sz : ℚ) * (sz : ℚ)) * (v : ℚ) := by
    intro ch hch
    rw [List.map_congr_left (fun p hp => pixVal_const hv (by
      have := chanIdx_mem_bounds hx0 hx1 hy0 hy1 hch hp
      omega))]
    rw [List.map_const', windowPoints_length, List.sum_replicate, nsmul_eq_mul]
    push_cast
    ring
  unfold specLuminance
  rw [hmap 0 (by norm_num), hmap 1 (by norm_num), hmap 2 (by norm_num)]
  field_simp
  ring

theorem specLuminance_window_const {pixels : List ℕ} {w sz : ℕ} {x0 y0 : ℤ}
    {v : ℚ} (hsz : 1 ≤ sz)
    (hv : ∀ p ∈ windowPoints x0 y0 sz, ∀ ch < 3, pixVal pixels w p ch = v) :
    specLuminance pixels w x0 y0 sz = v := by
  have hszQ : (0 : ℚ) < (sz : ℚ) := by exact_mod_cast hsz
  have hmap : ∀ ch : ℕ, ch < 3 →
      ((windowPoints x0 y0 sz).map (fun p => pixVal pixels w p ch)).sum =
        ((sz : ℚ) * (sz : ℚ)) * v := by
    intro ch hch
    rw [List.map_congr_left (fun p hp => hv p hp ch hch)]
    rw [List.map_const', windowPoints_length, List.sum_replicate, nsmul_eq_mul]
    push_cast
    ring
  unfold specLuminance
  rw [hmap 0 (by norm_num), hmap 1 (by norm_num), hmap 2 (by norm_num)]
  field_simp
  ring

/-! ### Claim theorems -/

/-- C1 counterexample: the claim "for every cube created by `setupCubes`, the
sampled pixel window lies entirely within `[0,W) × [0,H)`" is false.  With
`W = H = 8` and `size = 8` the grid has exactly one cube, at `(0,0)`, and its
mirrored window starts at `px0 = 8 - 0*8 = 8`, entirely outside `[0, 8)`. -/
theorem window_out_of_bounds_cex :
    ¬ ∀ c ∈ setupCubes 8 8 8, windowInBounds 8 8 8 c.posX c.posY := by
  rw [setupCubes_eval
    (loopIters_eval (nrOfCubesX 8 8) 1 (by norm_num [nrOfCubesX]) (by norm_num [nrOfCubesX]))
    (loopIters_eval (nrOfCubesY 8 8) 1 (by norm_num [nrOfCubesY]) (by norm_num [nrOfCubesY]))]
  decide

/-- C1 (amended): for a cube created by `setupCubes`, the sampled pixel window
(at the mirrored origin `px0 = W - gx*size`, `py0 = H - gy*size`) lies entirely
within `[0,W) × [0,H)` if and only if `gx ≥ 1` and `gy ≥ 1`; in particular the
first grid row and column always sample out of bounds. -/
theorem window_inBounds_iff (w h sz : ℕ) (hsz : 1 ≤ sz) (cube : Cube)
    (hmem : cube ∈ setupCubes w h sz) :
    windowInBounds w h sz cube.posX cube.posY ↔
      1 ≤ cube.posX ∧ 1 ≤ cube.posY := by
  obtain ⟨x, y, hx, hy, rfl⟩ := mem_setupCubes.mp hmem
  have hxw : x * sz < w := grid_mul_lt hsz hx
  have hyh : y * sz < h := grid_mul_lt hsz hy
  have hxw' : (x : ℤ) * (sz : ℤ) < (w : ℤ) := by exact_mod_cast hxw
  have hyh' : (y : ℤ) * (sz : ℤ) < (h : ℤ) := by exact_mod_cast hyh
  have hsz' : (1 : ℤ) ≤ (sz : ℤ) := by exact_mod_cast hsz
  simp only [mkCube]
  unfold windowInBounds
  constructor
  · rintro ⟨_, h2, _, h4⟩
    have hxs : (sz : ℤ) ≤ (x : ℤ) * (sz : ℤ) := by linarith
    have hys : (sz : ℤ) ≤ (y : ℤ) * (sz : ℤ) := by linarith
    constructor
    · rcases Nat.eq_zero_or_pos x with rfl | hx1
      · exfalso
        rw [Nat.cast_zero, zero_mul] at hxs
        omega
      · exact_mod_cast hx1
    · rcases Nat.eq_zero_or_pos y with rfl | hy1
      · exfalso
        rw [Nat.cast_zero, zero_mul] at hys
        omega
      · exact_mod_cast hy1
  · rintro ⟨hx1, hy1⟩
    have hxs : (sz : ℤ) ≤ (x : ℤ) * (sz : ℤ) :=
      le_mul_of_one_le_left (by positivity) hx1
    have hys : (sz : ℤ) ≤ (y : ℤ) * (sz : ℤ) :=
      le_mul_of_one_le_left (by positivity) hy1
    exact ⟨by linarith, by linarith, by linarith, by linarith⟩

/-- C1 (amended) witness: concrete instance `W = H = 16`, `size = 8`,
cube `(1,1)`. -/
theorem window_inBounds_iff_witness :
    1 ≤ 8 ∧ mkCube 1 1 ∈ setupCubes 16 16 8 ∧
      (windowInBounds 16 16 8 (mkCube 1 1).posX (mkCube 1 1).posY ↔
        1 ≤ (mkCube 1 1).posX ∧ 1 ≤ (mkCube 1 1).posY) := by
  have hmem : mkCube 1 1 ∈ setupCubes 16 16 8 := by
    rw [setupCubes_eval
      (loopIters_eval (nrOfCubesX 16 8) 2 (by norm_num [nrOfCubesX]) (by norm_num [nrOfCubesX]))
      (loopIters_eval (nrOfCubesY 16 8) 2 (by norm_num [nrOfCubesY]) (by norm_num [nrOfCubesY]))]
    decide
  exact ⟨by decide, hmem, window_inBounds_iff 16 16 8 (by decide) (mkCube 1 1) hmem⟩

/-- C2 counterexample: the claim "`cols = floor(W/size)`, `rows = floor(H/size)`
and the cube count equals `cols*rows`" fails at `W = 12`, `H = 8`, `size = 8`:
the code computes `nrOfCubesX = 12/8 = 1.5` (JS real division, not floored),
its loop runs twice, and 2 cubes are produced instead of
`floor(12/8) * floor(8/8) = 1`. -/
theorem setupCubes_count_not_floor_cex :
    (setupCubes 12 8 8).length ≠ Nat.floor ((12 : ℚ) / 8) * Nat.floor ((8 : ℚ) / 8) := by
  have h1 : (setupCubes 12 8 8).length = 2 := by
    rw [setupCubes_eval
      (loopIters_eval (nrOfCubesX 12 8) 2 (by norm_num [nrOfCubesX]) (by norm_num [nrOfCubesX]))
      (loopIters_eval (nrOfCubesY 8 8) 1 (by norm_num [nrOfCubesY]) (by norm_num [nrOfCubesY]))]
    rfl
  have h2 : Nat.floor ((12 : ℚ) / 8) = 1 := by
    rw [Nat.floor_eq_iff (by norm_num)]
    norm_num
  have h3 : Nat.floor ((8 : ℚ) / 8) = 1 := by
    rw [Nat.floor_eq_iff (by norm_num)]
    norm_num
  rw [h1, h2, h3]
  decide

/-- C2 (amended): for all `W, H, size ≥ 1`, the grid builder computes the
rational `nrOfCubesX = W/size` and `nrOfCubesY = H/size` (JS real division),
its loops run `⌈W/size⌉` and `⌈H/size⌉` times, and the number of cubes
produced equals `⌈W/size⌉ * ⌈H/size⌉` (ceiling, not floor; the two agree
exactly when `size` divides `W` and `H`). -/
theorem setupCubes_count_ceil (w h sz : ℕ) (hw : 1 ≤ w) (hh : 1 ≤ h)
    (hsz : 1 ≤ sz) :
    (setupCubes w h sz).length =
      Int.toNat ⌈nrOfCubesX w sz⌉ * Int.toNat ⌈nrOfCubesY h sz⌉ := by
  unfold setupCubes loopIters
  rw [List.length_flatMap]
  simp [Function.comp_def, List.map_const', List.sum_replicate, smul_eq_mul]

/-- C2 (amended) witness: `W = 12`, `H = 8`, `size = 8` gives
`2 = ⌈12/8⌉ * ⌈8/8⌉` cubes. -/
theorem setupCubes_count_ceil_witness :
    1 ≤ 12 ∧ 1 ≤ 8 ∧ 1 ≤ 8 ∧
      (setupCubes 12 8 8).length =
        Int.toNat ⌈nrOfCubesX 12 8⌉ * Int.toNat ⌈nrOfCubesY 8 8⌉ :=
  ⟨by decide, by decide, by decide,
    setupCubes_count_ceil 12 8 8 (by decide) (by decide) (by decide)⟩

/-- C3: the sampler reads the pixel window at exactly the doubly mirrored
origin `(px0, py0) = (W - gx*size, H - gy*size)`: the cube's updated color,
scale and depth are those computed by `getAverage` at `specMirroredOrigin`
(the spec's mapping), with both axes flipped relative to the naive
`(gx*size, gy*size)`. -/
theorem sampler_uses_mirrored_origin (pixels : List ℕ) (w h sz : ℕ)
    (colors : List (ℤ × Color)) (cube : Cube) :
    sampleCube pixels w h sz colors cube =
      { cube with
        color := colors.lookup (round (getAverage pixels w
          (specMirroredOrigin w h sz cube.posX cube.posY).1
          (specMirroredOrigin w h sz cube.posX cube.posY).2 sz))
        scaleZ := getAverage pixels w
          (specMirroredOrigin w h sz cube.posX cube.posY).1
          (specMirroredOrigin w h sz cube.posX cube.posY).2 sz / 10 + 0.01
        posZ := (getAverage pixels w
          (specMirroredOrigin w h sz cube.posX cube.posY).1
          (specMirroredOrigin w h sz cube.posX cube.posY).2 sz / 10 + 0.01) / 2 } :=
  rfl

/-- C4: for a frame buffer of the declared length `W*H*4` and a cube whose
sampling window is fully in bounds, the sampler writes
`colorIndex = round(L)` (looked up in the color table),
`heightValue = L/10 + 0.01`, and `depthOffset = heightValue/2`, where `L` is
the BT.709-weighted channel-sum luminance `specLuminance` over the window,
read at linear indices `(x + W*y)*4 + ch`. -/
theorem sampler_writes_spec_formulas (pixels : List ℕ) (w h sz : ℕ)
    (colors : List (ℤ × Color)) (cube : Cube)
    (hlen : pixels.length = w * h * 4) (hsz : 1 ≤ sz)
    (hin : windowInBounds w h sz cube.posX cube.posY) :
    (sampleCube pixels w h sz colors cube).color =
        colors.lookup (round (specLuminance pixels w
          ((w : ℤ) - cube.posX * (sz : ℤ)) ((h : ℤ) - cube.posY * (sz : ℤ)) sz)) ∧
      (sampleCube pixels w h sz colors cube).scaleZ =
        specLuminance pixels w ((w : ℤ) - cube.posX * (sz : ℤ))
          ((h : ℤ) - cube.posY * (sz : ℤ)) sz / 10 + 0.01 ∧
      (sampleCube pixels w h sz colors cube).posZ =
        (specLuminance pixels w ((w : ℤ) - cube.posX * (sz : ℤ))
          ((h : ℤ) - cube.posY * (sz : ℤ)) sz / 10 + 0.01) / 2 := by
  obtain ⟨h1, h2, h3, h4⟩ := hin
  have hL := getAverage_eq_spec hlen hsz h1 h2 h3 h4
  simp only [sampleCube]
  rw [hL]
  exact ⟨rfl, rfl, rfl⟩

/-- C4 witness: `W = H = 1`, `size = 1`, cube `(1,1)` (window `[0,1) × [0,1)`),
frame `[3, 3, 3, 255]`. -/
theorem sampler_writes_spec_formulas_witness :
    ([3, 3, 3, 255] : List ℕ).length = 1 * 1 * 4 ∧ 1 ≤ 1 ∧
      windowInBounds 1 1 1 (mkCube 1 1).posX (mkCube 1 1).posY ∧
      ((sampleCube [3, 3, 3, 255] 1 1 1 setupColors (mkCube 1 1)).color =
          setupColors.lookup (round (specLuminance [3, 3, 3, 255] 1
            ((1 : ℤ) - (mkCube 1 1).posX * ((1 : ℕ) : ℤ))
            ((1 : ℤ) - (mkCube 1 1).posY * ((1 : ℕ) : ℤ)) 1)) ∧
        (sampleCube [3, 3, 3, 255] 1 1 1 setupColors (mkCube 1 1)).scaleZ =
          specLuminance [3, 3, 3, 255] 1
            ((1 : ℤ) - (mkCube 1 1).posX * ((1 : ℕ) : ℤ))
            ((1 : ℤ) - (mkCube 1 1).posY * ((1 : ℕ) : ℤ)) 1 / 10 + 0.01 ∧
        (sampleCube [3, 3, 3, 255] 1 1 1 setupColors (mkCube 1 1)).posZ =
          (specLuminance [3, 3, 3, 255] 1
            ((1 : ℤ) - (mkCube 1 1).posX * ((1 : ℕ) : ℤ))
            ((1 : ℤ) - (mkCube 1 1).posY * ((1 : ℕ) : ℤ)) 1 / 10 + 0.01) / 2) :=
  ⟨rfl, le_refl 1, by decide,
    sampler_writes_spec_formulas [3, 3, 3, 255] 1 1 1 setupColors (mkCube 1 1)
      rfl (le_refl 1) (by decide)⟩

/-- C5: for a frame buffer of exactly the declared length `W*H*4` and a cube of
the first grid row (`gy = 0`, mirrored origin `py0 = H`), every pixel `(x, y)`
scanned by the sampler has `y ≥ H` and its linear index `(x + W*y)*4` lies past
the end of the buffer; the channel sums are therefore not numbers (`none`,
modelling `NaN`), and the sampler writes the fixed fallback `colorIndex = 1`,
`heightValue = 0.11`, `depthOffset = 0.055`, independent of the frame's pixel
contents. -/
theorem first_row_fallback (pixels : List ℕ) (w h sz : ℕ)
    (colors : List (ℤ × Color)) (cube : Cube)
    (hlen : pixels.length = w * h * 4) (hsz : 1 ≤ sz)
    (hmem : cube ∈ setupCubes w h sz) (hgy : cube.posY = 0) :
    (∀ p ∈ windowPoints ((w : ℤ) - cube.posX * (sz : ℤ))
        ((h : ℤ) - cube.posY * (sz : ℤ)) sz,
        (h : ℤ) ≤ p.2 ∧ (pixels.length : ℤ) ≤ (p.1 + (w : ℤ) * p.2) * 4) ∧
      sumWindow pixels w ((w : ℤ) - cube.posX * (sz : ℤ))
          ((h : ℤ) - cube.posY * (sz : ℤ)) sz =
        { r := none, g := none, b := none } ∧
      (sampleCube pixels w h sz colors cube).color = colors.lookup 1 ∧
      (sampleCube pixels w h sz colors cube).scaleZ = 0.11 ∧
      (sampleCube pixels w h sz colors cube).posZ = 0.055 := by
  obtain ⟨x, y, hxQ, hyQ, rfl⟩ := mem_setupCubes.mp hmem
  have hy0 : y = 0 := by
    have hy' : ((y : ℕ) : ℤ) = 0 := hgy
    exact_mod_cast hy'
  subst hy0
  have hxw : x * sz < w := grid_mul_lt hsz hxQ
  have hxw' : (x : ℤ) * (sz : ℤ) < (w : ℤ) := by exact_mod_cast hxw
  have hsz' : (1 : ℤ) ≤ (sz : ℤ) := by exact_mod_cast hsz
  simp only [mkCube, Nat.cast_zero, zero_mul, sub_zero]
  have hidx : ∀ p ∈ windowPoints ((w : ℤ) - (x : ℤ) * (sz : ℤ)) ((h : ℕ) : ℤ) sz,
      (h : ℤ) ≤ p.2 ∧ (pixels.length : ℤ) ≤ (p.1 + (w : ℤ) * p.2) * 4 := by
    intro p hp
    obtain ⟨dx, hdx, dy, hdy, rfl⟩ := mem_windowPoints.mp hp
    have hdy0 : (0 : ℤ) ≤ (dy : ℤ) := by positivity
    have hdx0 : (0 : ℤ) ≤ (dx : ℤ) := by positivity
    refine ⟨by simpa using hdy0, ?_⟩
    have hw0 : (0 : ℤ) ≤ (w : ℤ) := by positivity
    have hwh : (w : ℤ) * (h : ℤ) ≤ (w : ℤ) * ((h : ℤ) + (dy : ℤ)) :=
      mul_le_mul_of_nonneg_left (by linarith) hw0
    have hx1 : (1 : ℤ) ≤ (w : ℤ) - (x : ℤ) * (sz : ℤ) := by linarith
    have hlen' : (pixels.length : ℤ) = (w : ℤ) * (h : ℤ) * 4 := by
      rw [hlen]; push_cast; ring
    rw [hlen']
    dsimp only
    linarith
  have hreads : ∀ ch : ℕ,
      ∀ p ∈ windowPoints ((w : ℤ) - (x : ℤ) * (sz : ℤ)) ((h : ℕ) : ℤ) sz,
      readPix pixels (chanIdx w p ch) = none := by
    intro ch p hp
    apply readPix_eq_none
    have h2 := (hidx p hp).2
    have hch0 : (0 : ℤ) ≤ (ch : ℤ) := by positivity
    unfold chanIdx
    linarith
  have hp0 : ((w : ℤ) - (x : ℤ) * (sz : ℤ), ((h : ℕ) : ℤ)) ∈
      windowPoints ((w : ℤ) - (x : ℤ) * (sz : ℤ)) ((h : ℕ) : ℤ) sz :=
    mem_windowPoints.mpr ⟨0, by omega, 0, by omega, by simp⟩
  have hsum : sumWindow pixels w ((w : ℤ) - (x : ℤ) * (sz : ℤ)) ((h : ℕ) : ℤ) sz =
      { r := none, g := none, b := none } := by
    rw [sumWindow_eq_foldl]
    refine ChannelSums.ext ?_ ?_ ?_
    · rw [foldl_addPixel_r]
      exact foldl_nadd_eq_none _ (fun p => readPix pixels (chanIdx w p 0)) _
        ⟨_, hp0, hreads 0 _ hp0⟩
    · rw [foldl_addPixel_g]
      exact foldl_nadd_eq_none _ (fun p => readPix pixels (chanIdx w p 1)) _
        ⟨_, hp0, hreads 1 _ hp0⟩
    · rw [foldl_addPixel_b]
      exact foldl_nadd_eq_none _ (fun p => readPix pixels (chanIdx w p 2)) _
        ⟨_, hp0, hreads 2 _ hp0⟩
  have hraw : getAverageRaw pixels w ((w : ℤ) - (x : ℤ) * (sz : ℤ)) ((h : ℕ) : ℤ) sz
      = none := by
    unfold getAverageRaw
    rw [hsum]
    rfl
  have hga : getAverage pixels w ((w : ℤ) - (x : ℤ) * (sz : ℤ)) ((h : ℕ) : ℤ) sz
      = 1 := by
    unfold getAverage
    rw [hraw]
  refine ⟨hidx, hsum, ?_, ?_, ?_⟩
  · simp only [sampleCube, mkCube, Nat.cast_zero, zero_mul, sub_zero]
    rw [hga, round_one]
  · simp only [sampleCube, mkCube, Nat.cast_zero, zero_mul, sub_zero]
    rw [hga]
    norm_num
  · simp only [sampleCube, mkCube, Nat.cast_zero, zero_mul, sub_zero]
    rw [hga]
    norm_num

/-- C5 witness: `W = H = 8`, `size = 8`, the single cube `(0,0)`, and a frame
of `8*8*4 = 256` bytes all equal to 7. -/
theorem first_row_fallback_witness :
    (List.replicate 256 7).length = 8 * 8 * 4 ∧ 1 ≤ 8 ∧
      mkCube 0 0 ∈ setupCubes 8 8 8 ∧ (mkCube 0 0).posY = 0 ∧
      ((∀ p ∈ windowPoints (((8 : ℕ) : ℤ) - (mkCube 0 0).posX * ((8 : ℕ) : ℤ))
          (((8 : ℕ) : ℤ) - (mkCube 0 0).posY * ((8 : ℕ) : ℤ)) 8,
          ((8 : ℕ) : ℤ) ≤ p.2 ∧
            ((List.replicate 256 7).length : ℤ) ≤ (p.1 + ((8 : ℕ) : ℤ) * p.2) * 4) ∧
        sumWindow (List.replicate 256 7) 8
            (((8 : ℕ) : ℤ) - (mkCube 0 0).posX * ((8 : ℕ) : ℤ))
            (((8 : ℕ) : ℤ) - (mkCube 0 0).posY * ((8 : ℕ) : ℤ)) 8 =
          { r := none, g := none, b := none } ∧
        (sampleCube (List.replicate 256 7) 8 8 8 setupColors (mkCube 0 0)).color =
          setupColors.lookup 1 ∧
        (sampleCube (List.replicate 256 7) 8 8 8 setupColors (mkCube 0 0)).scaleZ =
          0.11 ∧
        (sampleCube (List.replicate 256 7) 8 8 8 setupColors (mkCube 0 0)).posZ =
          0.055) := by
  have hmem : mkCube 0 0 ∈ setupCubes 8 8 8 := by
    rw [setupCubes_eval
      (loopIters_eval (nrOfCubesX 8 8) 1 (by norm_num [nrOfCubesX]) (by norm_num [nrOfCubesX]))
      (loopIters_eval (nrOfCubesY 8 8) 1 (by norm_num [nrOfCubesY]) (by norm_num [nrOfCubesY]))]
    decide
  have hlen : (List.replicate 256 7).length = 8 * 8 * 4 := by
    rw [List.length_replicate]
  exact ⟨hlen, by decide, hmem, rfl,
    first_row_fallback (List.replicate 256 7) 8 8 8 setupColors (mkCube 0 0)
      hlen (by decide) hmem rfl⟩

/-- C6: whenever the computed luminance is not a finite number (`getAverageRaw`
returns `none`), the sampler substitutes `L = 1` and consequently writes
`colorIndex = 1` and `heightValue = 0.11` (so `depthOffset = 0.055`); this is
a defined fallback — every function of the model is total, so no error can be
raised. -/
theorem nonfinite_luminance_fallback (pixels : List ℕ) (w h sz : ℕ)
    (colors : List (ℤ × Color)) (cube : Cube)
    (hnan : getAverageRaw pixels w ((w : ℤ) - cube.posX * (sz : ℤ))
      ((h : ℤ) - cube.posY * (sz : ℤ)) sz = none) :
    getAverage pixels w ((w : ℤ) - cube.posX * (sz : ℤ))
        ((h : ℤ) - cube.posY * (sz : ℤ)) sz = 1 ∧
      (sampleCube pixels w h sz colors cube).color = colors.lookup 1 ∧
      (sampleCube pixels w h sz colors cube).scaleZ = 0.11 ∧
      (sampleCube pixels w h sz colors cube).posZ = 0.055 := by
  have hga : getAverage pixels w ((w : ℤ) - cube.posX * (sz : ℤ))
      ((h : ℤ) - cube.posY * (sz : ℤ)) sz = 1 := by
    unfold getAverage
    rw [hnan]
  refine ⟨hga, ?_, ?_, ?_⟩
  · simp only [sampleCube]
    rw [hga, round_one]
  · simp only [sampleCube]
    rw [hga]
    norm_num
  · simp only [sampleCube]
    rw [hga]
    norm_num

/-- C6 witness: the empty buffer with `W = H = 0` (every read is out of range,
so the raw luminance is `NaN`). -/
theorem nonfinite_luminance_fallback_witness :
    getAverageRaw [] 0 (((0 : ℕ) : ℤ) - (mkCube 0 0).posX * ((8 : ℕ) : ℤ))
        (((0 : ℕ) : ℤ) - (mkCube 0 0).posY * ((8 : ℕ) : ℤ)) 8 = none ∧
      (getAverage [] 0 (((0 : ℕ) : ℤ) - (mkCube 0 0).posX * ((8 : ℕ) : ℤ))
          (((0 : ℕ) : ℤ) - (mkCube 0 0).posY * ((8 : ℕ) : ℤ)) 8 = 1 ∧
        (sampleCube [] 0 0 8 setupColors (mkCube 0 0)).color = setupColors.lookup 1 ∧
        (sampleCube [] 0 0 8 setupColors (mkCube 0 0)).scaleZ = 0.11 ∧
        (sampleCube [] 0 0 8 setupColors (mkCube 0 0)).posZ = 0.055) :=
  ⟨by decide, nonfinite_luminance_fallback [] 0 0 8 setupColors (mkCube 0 0) (by decide)⟩

/-- C7 counterexample: for the all-255 in-bounds block (`W = H = 1`,
`size = 1`, cube `(1,1)`, every byte 255) the sampler's height is
`255/10 + 0.01 = 25.51`, not the claimed `25.6`, and its depth offset is
`12.755`, not `12.8`. -/
theorem all255_height_cex :
    (sampleCube [255, 255, 255, 255] 1 1 1 setupColors (mkCube 1 1)).scaleZ ≠
        (25.6 : ℚ) ∧
      (sampleCube [255, 255, 255, 255] 1 1 1 setupColors (mkCube 1 1)).posZ ≠
        (12.8 : ℚ) := by
  have h255 : ∀ u ∈ ([255, 255, 255, 255] : List ℕ), u = 255 := by decide
  have hL : getAverage [255, 255, 255, 255] 1
      (((1 : ℕ) : ℤ) - (mkCube 1 1).posX * ((1 : ℕ) : ℤ))
      (((1 : ℕ) : ℤ) - (mkCube 1 1).posY * ((1 : ℕ) : ℤ)) 1 = 255 := by
    rw [getAverage_eq_spec (h := 1) rfl (le_refl 1)
        (by decide) (by decide) (by decide) (by decide),
      specLuminance_const (h := 1) (v := 255) rfl (le_refl 1)
        (by decide) (by decide) (by decide) (by decide) h255]
    norm_num
  constructor
  · simp only [sampleCube]
    rw [hL]
    norm_num
  · simp only [sampleCube]
    rw [hL]
    norm_num

/-- C7 (amended): for a block whose entire in-bounds sampling region has every
red, green and blue channel value equal to 255 (the rest of the frame is
unconstrained), the sampler outputs `colorIndex = 255`,
`heightValue = 255/10 + 0.01 = 25.51` and `depthOffset = 12.755`. -/
theorem all255_outputs (pixels : List ℕ) (w h sz : ℕ)
    (colors : List (ℤ × Color)) (cube : Cube)
    (hlen : pixels.length = w * h * 4) (hsz : 1 ≤ sz)
    (hin : windowInBounds w h sz cube.posX cube.posY)
    (h255 : ∀ p ∈ windowPoints ((w : ℤ) - cube.posX * (sz : ℤ))
        ((h : ℤ) - cube.posY * (sz : ℤ)) sz,
        ∀ ch < 3, pixVal pixels w p ch = 255) :
    (sampleCube pixels w h sz colors cube).color = colors.lookup 255 ∧
      (sampleCube pixels w h sz colors cube).scaleZ = 25.51 ∧
      (sampleCube pixels w h sz colors cube).posZ = 12.755 := by
  obtain ⟨h1, h2, h3, h4⟩ := hin
  have hL : getAverage pixels w ((w : ℤ) - cube.posX * (sz : ℤ))
      ((h : ℤ) - cube.posY * (sz : ℤ)) sz = 255 := by
    rw [getAverage_eq_spec hlen hsz h1 h2 h3 h4,
      specLuminance_window_const hsz h255]
  have hr : round (255 : ℚ) = 255 := by
    rw [show (255 : ℚ) = ((255 : ℕ) : ℚ) by norm_num, round_natCast]
    norm_num
  refine ⟨?_, ?_, ?_⟩
  · simp only [sampleCube]
    rw [hL, hr]
  · simp only [sampleCube]
    rw [hL]
    norm_num
  · simp only [sampleCube]
    rw [hL]
    norm_num

/-- C7 (amended) witness: `W = 2`, `H = 1`, `size = 1`, cube `(1,1)`, whose
window is the single pixel `(1, 0)` with all channels 255, inside a frame whose
other pixel is dark — the region is saturated, the rest of the frame is not. -/
theorem all255_outputs_witness :
    ([9, 9, 9, 255, 255, 255, 255, 255] : List ℕ).length = 2 * 1 * 4 ∧ 1 ≤ 1 ∧
      windowInBounds 2 1 1 (mkCube 1 1).posX (mkCube 1 1).posY ∧
      (∀ p ∈ windowPoints (((2 : ℕ) : ℤ) - (mkCube 1 1).posX * ((1 : ℕ) : ℤ))
          (((1 : ℕ) : ℤ) - (mkCube 1 1).posY * ((1 : ℕ) : ℤ)) 1,
          ∀ ch < 3, pixVal [9, 9, 9, 255, 255, 255, 255, 255] 2 p ch = 255) ∧
      ((sampleCube [9, 9, 9, 255, 255, 255, 255, 255] 2 1 1 setupColors
            (mkCube 1 1)).color = setupColors.lookup 255 ∧
        (sampleCube [9, 9, 9, 255, 255, 255, 255, 255] 2 1 1 setupColors
            (mkCube 1 1)).scaleZ = 25.51 ∧
        (sampleCube [9, 9, 9, 255, 255, 255, 255, 255] 2 1 1 setupColors
            (mkCube 1 1)).posZ = 12.755) :=
  ⟨rfl, le_refl 1, by decide, by decide,
    all255_outputs [9, 9, 9, 255, 255, 255, 255, 255] 2 1 1 setupColors
      (mkCube 1 1) rfl (le_refl 1) (by decide) (by decide)⟩

/-- C8: for an in-bounds block and two frame buffers `A`, `B` of the declared
length such that every red, green and blue channel value of the block's region
in `B` is at least the corresponding value in `A`, the luminance computed on
`B` is at least the luminance computed on `A`. -/
theorem luminance_monotone (A B : List ℕ) (w h sz : ℕ) (cube : Cube)
    (hlenA : A.length = w * h * 4) (hlenB : B.length = w * h * 4) (hsz : 1 ≤ sz)
    (hin : windowInBounds w h sz cube.posX cube.posY)
    (hmono : ∀ p ∈ windowPoints ((w : ℤ) - cube.posX * (sz : ℤ))
        ((h : ℤ) - cube.posY * (sz : ℤ)) sz,
        ∀ ch < 3, pixVal A w p ch ≤ pixVal B w p ch) :
    getAverage A w ((w : ℤ) - cube.posX * (sz : ℤ))
        ((h : ℤ) - cube.posY * (sz : ℤ)) sz ≤
      getAverage B w ((w : ℤ) - cube.posX * (sz : ℤ))
        ((h : ℤ) - cube.posY * (sz : ℤ)) sz := by
  obtain ⟨h1, h2, h3, h4⟩ := hin
  rw [getAverage_eq_spec hlenA hsz h1 h2 h3 h4,
    getAverage_eq_spec hlenB hsz h1 h2 h3 h4]
  have hszQ : (0 : ℚ) < (sz : ℚ) * (sz : ℚ) := by
    have : (0 : ℚ) < (sz : ℚ) := by exact_mod_cast hsz
    positivity
  unfold specLuminance
  rw [div_le_div_iff_of_pos_right hszQ]
  have m0 := List.sum_le_sum (fun p hp => hmono p hp 0 (by norm_num))
  have m1 := List.sum_le_sum (fun p hp => hmono p hp 1 (by norm_num))
  have m2 := List.sum_le_sum (fun p hp => hmono p hp 2 (by norm_num))
  linarith

/-- C8 witness: `W = H = 1`, `size = 1`, cube `(1,1)`, with `A = B` a 4-byte
frame (every channel of `B` is ≥ the corresponding channel of `A`). -/
theorem luminance_monotone_witness :
    ([3, 3, 3, 255] : List ℕ).length = 1 * 1 * 4 ∧
      ([3, 3, 3, 255] : List ℕ).length = 1 * 1 * 4 ∧ 1 ≤ 1 ∧
      windowInBounds 1 1 1 (mkCube 1 1).posX (mkCube 1 1).posY ∧
      (∀ p ∈ windowPoints (((1 : ℕ) : ℤ) - (mkCube 1 1).posX * ((1 : ℕ) : ℤ))
          (((1 : ℕ) : ℤ) - (mkCube 1 1).posY * ((1 : ℕ) : ℤ)) 1,
          ∀ ch < 3, pixVal [3, 3, 3, 255] 1 p ch ≤ pixVal [3, 3, 3, 255] 1 p ch) ∧
      getAverage [3, 3, 3, 255] 1 (((1 : ℕ) : ℤ) - (mkCube 1 1).posX * ((1 : ℕ) : ℤ))
          (((1 : ℕ) : ℤ) - (mkCube 1 1).posY * ((1 : ℕ) : ℤ)) 1 ≤
        getAverage [3, 3, 3, 255] 1 (((1 : ℕ) : ℤ) - (mkCube 1 1).posX * ((1 : ℕ) : ℤ))
          (((1 : ℕ) : ℤ) - (mkCube 1 1).posY * ((1 : ℕ) : ℤ)) 1 :=
  ⟨rfl, rfl, le_refl 1, by decide, fun p _ ch _ => le_refl (pixVal [3, 3, 3, 255] 1 p ch),
    luminance_monotone [3, 3, 3, 255] [3, 3, 3, 255] 1 1 1 (mkCube 1 1)
      rfl rfl (le_refl 1) (by decide)
      (fun p _ ch _ => le_refl (pixVal [3, 3, 3, 255] 1 p ch))⟩

/-- C10 counterexample: the claim "the per-cycle pass mutates exactly the three
rendering attributes and no other state" is false: `pixelate` also paints a red
50×50 debug rectangle onto the 2D canvas. On a 1×1 canvas holding the single
pixel `(7,7,7)`, the canvas contents change. -/
theorem pixelate_mutates_canvas_cex :
    (pixelate ⟨1, 1, [(7, 7, 7)], setupColors, [mkCube 0 0]⟩).canvas ≠
      (⟨1, 1, [(7, 7, 7)], setupColors, [mkCube 0 0]⟩ : SketchState).canvas := by
  decide

/-- C10 (amended): the per-cycle pass `pixelate` mutates exactly the three
rendering attributes of each cube — each cube is replaced by `sampleCube` of
the frame snapshot, which preserves the grid coordinates — and, in addition,
paints the red 50×50 debug rectangle on the 2D canvas; the frame snapshot it
samples, the color table, the dimensions and the cubes' grid coordinates are
unchanged. -/
theorem pixelate_effects (s : SketchState) :
    (pixelate s).w = s.w ∧ (pixelate s).h = s.h ∧
      (pixelate s).colors = s.colors ∧
      (pixelate s).cubes.map Cube.posX = s.cubes.map Cube.posX ∧
      (pixelate s).cubes.map Cube.posY = s.cubes.map Cube.posY ∧
      (pixelate s).canvas = fillRect s.w s.canvas 0 0 50 50 red ∧
      (pixelate s).cubes =
        s.cubes.map (sampleCube (getImageData s.canvas) s.w s.h size s.colors) := by
  refine ⟨rfl, rfl, rfl, ?_, ?_, rfl, rfl⟩
  · show (s.cubes.map (sampleCube (getImageData s.canvas) s.w s.h size s.colors)).map
        Cube.posX = s.cubes.map Cube.posX
    rw [List.map_map]
    exact List.map_congr_left fun c _ => rfl
  · show (s.cubes.map (sampleCube (getImageData s.canvas) s.w s.h size s.colors)).map
        Cube.posY = s.cubes.map Cube.posY
    rw [List.map_map]
    exact List.map_congr_left fun c _ => rfl

/-- C9: invoking the sampler twice in succession on the unchanged pixel buffer
and the same cube writes identical color, scale and depth values both times:
the second invocation reproduces the first's output exactly. -/
theorem sampler_idempotent (pixels : List ℕ) (w h sz : ℕ)
    (colors : List (ℤ × Color)) (cube : Cube) :
    sampleCube pixels w h sz colors (sampleCube pixels w h sz colors cube) =
      sampleCube pixels w h sz colors cube := by
  cases cube
  rfl

end PinPortrait
